import Mathlib

/-!
Verification of the resilient data-access layer and bounded historical cache
of the WoW economics MCP server (`app/api/blizzard_client.py` and
`analysis_mcp_server.py`), via a shallow embedding in Lean 4.

Machine integers are modelled as `Nat`/`Int`, Python floats as exact
rationals (`ℚ`), Python strings as `List Char` where character-level
computation matters, wall-clock instants as `Nat` time units, and Python
dicts as association lists in insertion order.  Cooperative (asyncio)
concurrency is modelled as an explicit interleaving of per-task small-step
programs whose yield points are exactly the `await` points of the source.
-/

set_option maxRecDepth 100000

namespace Wowconomics

/-! ## Resource limits (`analysis_mcp_server.py`, lines 78-90) -/

/-- `HISTORY_MAX_ENTRIES = 288` (line 78). -/
def HISTORY_MAX_ENTRIES : Nat := 288

/-- `RESOURCE_LIMITS["MAX_REALMS_PER_REQUEST"] = 5` (line 83). -/
def MAX_REALMS_PER_REQUEST : Nat := 5

/-- `RESOURCE_LIMITS["MAX_ITEMS_PER_REALM"] = 500` (line 84). -/
def MAX_ITEMS_PER_REALM : Int := 500

/-- `RESOURCE_LIMITS["MIN_SECONDS_BETWEEN_UPDATES"] = 60` (line 87). -/
def MIN_SECONDS_BETWEEN_UPDATES : Nat := 60

/-- `RESOURCE_LIMITS["MAX_DATA_POINTS_PER_ITEM"] = 288` (line 89). -/
def MAX_DATA_POINTS_PER_ITEM : Nat := 288

/-! ## RateLimiter (`blizzard_client.py`, lines 31-52)

Timestamps are `Nat` values in abstract sub-second time units; the
configured 1-second window is `timeWindow` such units.  For the configured
`time_window = 1` second, the pruning test
`(now - req_time).seconds < self.time_window` holds exactly when the age of
the entry is strictly less than one second, i.e. strictly less than
`timeWindow` time units.  One call to `acquire` that reaches the append is
one atomic prune/check/append sequence, because the body runs under
`self._lock` with no `await` between the prune and the append. -/

/-- Line 44-45: `self.requests = [t for t in self.requests if (now - t).seconds < self.time_window]`. -/
def pruneWindow (timeWindow now : Nat) (requests : List Nat) : List Nat :=
  requests.filter (fun r => now - r < timeWindow)

/-- Lines 41-52, one attempt of `RateLimiter.acquire` at time `now`:
prune, then admit (append `now`) iff the pruned window is under
`maxRequests`.  Returns whether the attempt admitted, and the new
`self.requests`. -/
def acquireStep (maxRequests timeWindow now : Nat) (requests : List Nat) :
    Bool × List Nat :=
  let pruned := pruneWindow timeWindow now requests
  if pruned.length < maxRequests then (true, pruned ++ [now]) else (false, pruned)

/-- Limiter state plus the ghost trace of every timestamp ever admitted
(recorded) by `acquire`. -/
structure RLTrace where
  requests : List Nat
  admitted : List Nat
  deriving Repr, DecidableEq

/-- One `acquire` attempt at time `now`, threading the ghost trace. -/
def rlStep (maxRequests timeWindow : Nat) (tr : RLTrace) (now : Nat) : RLTrace :=
  let s := acquireStep maxRequests timeWindow now tr.requests
  { requests := s.2, admitted := if s.1 then tr.admitted ++ [now] else tr.admitted }

/-- Run a sequence of `acquire` attempts at the given (nondecreasing) times,
starting from the freshly constructed limiter (`self.requests = []`). -/
def rlRun (maxRequests timeWindow : Nat) (times : List Nat) : RLTrace :=
  times.foldl (rlStep maxRequests timeWindow) ⟨[], []⟩

/-- `r` lies in the sliding window of length `timeWindow` ending at time `t`. -/
def inWindow (timeWindow t r : Nat) : Bool := r ≤ t && t - r < timeWindow

/-- Number of admitted timestamps inside the sliding window ending at `t`. -/
def windowCount (timeWindow : Nat) (admitted : List Nat) (t : Nat) : Nat :=
  admitted.countP (inWindow timeWindow t)

/-! ## TokenManager: `BlizzardAPIClient.get_access_token`
(`blizzard_client.py`, lines 94-122)

`get_access_token` holds no lock.  Its only suspension point before the
cache is written is the `await self.session.post(self.AUTH_URL, ...)`
credential exchange; the cached-token check (line 96) and the cache update
(lines 114-116) run atomically between yields.  Each logical task calling
`get_access_token` is therefore a two-phase program: phase `start` performs
the check and, on a miss, issues the exchange and suspends; phase
`awaitingExchange` resumes after the HTTP response and writes
`self.access_token` / `self.token_expires_at`. -/

/-- Shared client credential state; `exchanges` is a ghost counter of
POSTs issued to the authorization endpoint. -/
structure TokenState where
  access_token : Option Nat
  token_expires_at : Option Nat
  exchanges : Nat
  deriving Repr, DecidableEq

/-- Program counter of one task inside `get_access_token`. -/
inductive TokenTaskPhase where
  | start
  | awaitingExchange
  | finished
  deriving Repr, DecidableEq

/-- Line 96: `if self.access_token and self.token_expires_at and
datetime.now() < self.token_expires_at`. -/
def tokenValid (now : Nat) (s : TokenState) : Bool :=
  match s.access_token, s.token_expires_at with
  | some _, some e => now < e
  | _, _ => false

/-- One cooperative step of a task in `get_access_token`.  `expiresIn` is
the `expires_in` reported by the exchange (lines 115-116 set
`token_expires_at = now + expires_in - 60`). -/
def tokenTaskStep (now expiresIn : Nat) (s : TokenState) (pc : TokenTaskPhase) :
    TokenState × TokenTaskPhase :=
  match pc with
  | .start =>
      if tokenValid now s then (s, .finished)
      else ({ s with exchanges := s.exchanges + 1 }, .awaitingExchange)
  | .awaitingExchange =>
      ({ s with access_token := some (s.exchanges),
                token_expires_at := some (now + expiresIn - 60) }, .finished)
  | .finished => (s, .finished)

/-- Scheduler step: advance task `i` by one cooperative step. -/
def tokenSysStep (now expiresIn : Nat) (sys : TokenState × List TokenTaskPhase)
    (i : Nat) : TokenState × List TokenTaskPhase :=
  match sys.2.get? i with
  | none => sys
  | some pc =>
      let r := tokenTaskStep now expiresIn sys.1 pc
      (r.1, sys.2.set i r.2)

/-- Run a schedule (a list of task indices) over tasks that all invoke
`get_access_token`, starting with no cached credential
(`self.access_token = None`, `self.token_expires_at = None`). -/
def runTokenSchedule (now expiresIn : Nat) (tasks : List TokenTaskPhase)
    (sched : List Nat) : TokenState × List TokenTaskPhase :=
  sched.foldl (tokenSysStep now expiresIn) (⟨none, none, 0⟩, tasks)

/-! ## HistoricalStore: `store_historical_data`
(`analysis_mcp_server.py`, lines 104-126)

Only the per-series `data_points` list matters for the capacity claim; a
data point is an opaque value of type `π`. -/

/-- Lines 116-120: append the new point, then
`if len(...) > HISTORY_MAX_ENTRIES: ... = ...[-HISTORY_MAX_ENTRIES:]`
(keep the last `HISTORY_MAX_ENTRIES` points). -/
def store_historical_data {π : Type} (series : List π) (p : π) : List π :=
  let appended := series ++ [p]
  if HISTORY_MAX_ENTRIES < appended.length then
    appended.drop (appended.length - HISTORY_MAX_ENTRIES)
  else appended

/-! ## RequestExecutor: `make_request` and its retry decorator
(`blizzard_client.py`, lines 162-243)

The decorator is
`@retry(stop=stop_after_attempt(3), wait=wait_exponential(multiplier=1, min=4, max=10), retry=retry_if_exception_type(aiohttp.ClientError))`.
One HTTP attempt is abstracted by the outcome of `session.get`: either it
raises `aiohttp.ClientError` (connection reset, timeout) or it returns a
response with some status code; `g2` is the outcome of the second
`session.get` issued on the 403 token-refresh path. -/

/-- Outcome of one `session.get`. -/
inductive GetOutcome where
  | clientError
  | respStatus (status : Nat)
  deriving Repr, DecidableEq

/-- Exceptions escaping `make_request`'s body: `aiohttp.ClientError`
(retryable per the decorator) or `BlizzardAPIError` with an optional
status code. -/
inductive PyExc where
  | clientError
  | blizzardError (status : Option Nat)
  deriving Repr, DecidableEq

/-- Body of `make_request` (lines 167-243): the status dispatch, with the
blanket `except aiohttp.ClientError: raise BlizzardAPIError(...)`
(lines 242-243) converting every network failure.  The 429 branch sleeps
and then raises; `get_access_token` failures also surface as
`BlizzardAPIError` (line 122). -/
def makeRequestBody (g1 g2 : GetOutcome) : Except PyExc Unit :=
  match g1 with
  | .clientError => .error (.blizzardError none)
  | .respStatus status =>
    if status = 429 then .error (.blizzardError (some 429))
    else if status = 404 then .error (.blizzardError (some 404))
    else if status = 403 then
      match g2 with
      | .clientError => .error (.blizzardError none)
      | .respStatus rstatus =>
        if rstatus ≠ 200 then .error (.blizzardError (some rstatus)) else .ok ()
    else if status ≠ 200 then .error (.blizzardError (some status))
    else .ok ()

/-- `retry_if_exception_type(aiohttp.ClientError)`: retry exactly when the
raised exception is an `aiohttp.ClientError`. -/
def retryOnClientError (e : PyExc) : Bool :=
  match e with
  | .clientError => true
  | .blizzardError _ => false

/-- tenacity's `wait_exponential(multiplier, min, max)` after the failure
of attempt number `attemptNumber`: the raw wait
`multiplier * 2 ^ (attemptNumber - 1)` clamped into `[minW, maxW]`. -/
def wait_exponential (multiplier minW maxW attemptNumber : Nat) : Nat :=
  max minW (min (multiplier * 2 ^ (attemptNumber - 1)) maxW)

/-- tenacity's retry loop: run attempt `attempt`; on success stop; on a
retryable failure with remaining budget, record the backoff delay and
retry; otherwise surface the failure.  `fuel` is the number of retries
still allowed (`stop_after_attempt n` starts with `fuel = n - 1`).
Returns (result, number of the last attempt made, backoff delays). -/
def tenacityGo {α : Type} (body : Nat → Except PyExc α) (wait : Nat → Nat) :
    Nat → Nat → List Nat → Except PyExc α × Nat × List Nat
  | fuel, attempt, delays =>
    match body attempt with
    | .ok v => (.ok v, attempt, delays)
    | .error e =>
      if retryOnClientError e then
        match fuel with
        | 0 => (.error e, attempt, delays)
        | fuel' + 1 => tenacityGo body wait fuel' (attempt + 1) (delays ++ [wait attempt])
      else (.error e, attempt, delays)

/-- `make_request` as decorated: `stop_after_attempt(3)` with
`wait_exponential(multiplier=1, min=4, max=10)` around the body, where
`gets n` gives the outcomes of the two possible `session.get` calls of
attempt `n`. -/
def make_request_execute (gets : Nat → GetOutcome × GetOutcome) :
    Except PyExc Unit × Nat × List Nat :=
  tenacityGo (fun n => makeRequestBody (gets n).1 (gets n).2)
    (wait_exponential 1 4 10) 2 1 []

/-! ## HistoricalStore eviction: `cleanup_old_historical_data`
(`analysis_mcp_server.py`, lines 222-241)

The store is the dict `historical_data` in insertion order: an association
list from series key `κ` to the series' `data_points` list.  Python's
`sorted(..., key=lambda x: len(x[1]...), reverse=True)` is a stable
descending sort by point count, modelled by stable insertion. -/

/-- Store: dict from series key to `data_points`, in insertion order. -/
abbrev Store (κ π : Type) := List (κ × List π)

/-- Stable descending-by-length insertion: the new element goes before the
first strictly shorter entry, after all entries of length at least its
own (matching the stability of Python's `sorted`). -/
def insertByLenDesc {κ π : Type} (x : κ × List π) : Store κ π → Store κ π
  | [] => [x]
  | y :: ys =>
      if y.2.length ≤ x.2.length then x :: y :: ys else y :: insertByLenDesc x ys

/-- Lines 227-231: `sorted(historical_data.items(), key=lambda x: len(x[1].get("data_points", [])), reverse=True)`. -/
def sortByLenDesc {κ π : Type} (s : Store κ π) : Store κ π :=
  s.foldr insertByLenDesc []

/-- Lines 222-241: take the 100 largest series; each of those whose length
exceeds `MAX_DATA_POINTS_PER_ITEM` is truncated in place (in the dict) to
its most recent `MAX_DATA_POINTS_PER_ITEM` points. -/
def cleanup_old_historical_data {κ π : Type} [DecidableEq κ] (s : Store κ π) :
    Store κ π :=
  let topKeys := ((sortByLenDesc s).take 100).map Prod.fst
  s.map (fun e =>
    if e.1 ∈ topKeys ∧ MAX_DATA_POINTS_PER_ITEM < e.2.length then
      (e.1, e.2.drop (e.2.length - MAX_DATA_POINTS_PER_ITEM))
    else e)

/-- 101 series, each holding 289 (> 288) data points: more over-cap series
than one cleanup pass will select. -/
def overfullStore : Store Nat Unit :=
  (List.range 101).map (fun i => (i, List.replicate 289 ()))

/-! ## MarketAnalyticsEngine: trend metrics of `get_historical_trends`
(`analysis_mcp_server.py`, lines 173-188)

Python float arithmetic is modelled as exact rational arithmetic. -/

/-- Line 177: `avg_price = sum(prices) / len(prices)`. -/
def avg_price (prices : List ℚ) : ℚ := prices.sum / prices.length

/-- Line 178: `min_price = min(prices)` (Python `min` of a list). -/
def min_price : List ℚ → ℚ
  | [] => 0
  | p :: rest => rest.foldl min p

/-- Line 179: `max_price = max(prices)`. -/
def max_price : List ℚ → ℚ
  | [] => 0
  | p :: rest => rest.foldl max p

/-- Line 180: `price_volatility = (max_price - min_price) / avg_price if avg_price > 0 else 0`. -/
def price_volatility (prices : List ℚ) : ℚ :=
  if 0 < avg_price prices then (max_price prices - min_price prices) / avg_price prices
  else 0

/-! ## ResultCache: `cache_analysis` / `get_cached_analysis`
(`analysis_mcp_server.py`, lines 92-102)

`analysis_cache` and `analysis_cache_ttl` are two dicts, modelled as
association lists; instants are `Nat`. -/

/-- Python dict lookup `d[k]` / `k in d` over an association list. -/
def dictGet {κ V : Type} [DecidableEq κ] : List (κ × V) → κ → Option V
  | [], _ => none
  | (k, v) :: rest, key => if k = key then some v else dictGet rest key

/-- Lines 97-102: return the cached value iff the key is in both dicts and
`datetime.now() < analysis_cache_ttl[key]`; otherwise `None`. -/
def get_cached_analysis {κ V : Type} [DecidableEq κ] (cache : List (κ × V))
    (ttl : List (κ × Nat)) (now : Nat) (key : κ) : Option V :=
  match dictGet cache key, dictGet ttl key with
  | some v, some expiry => if now < expiry then some v else none
  | _, _ => none

/-! ## Region fallback: `make_request_with_region`
(`blizzard_client.py`, lines 132-160)

`make_request` never assigns `self.base_url` or `self.region`; its effect
is abstracted by an oracle `mr` from the current `base_url` to a result.
The `finally` clause restoring `original_base_url` is reflected in every
branch of the embedding. -/

/-- The mutable client fields relevant to the frame claim. -/
structure ClientState where
  region : String
  base_url : String
  deriving Repr, DecidableEq

/-- A `BlizzardAPIError` carries an optional HTTP status code. -/
structure APIErr where
  status : Option Nat
  deriving Repr, DecidableEq

/-- Line 142 / line 67: `f"https://{region}.api.blizzard.com"`. -/
def regionBaseUrl (region : String) : String :=
  "https://" ++ region ++ ".api.blizzard.com"

/-- Line 151: `'eu' if self.region == 'us' else 'us'`. -/
def alternateRegion (region : String) : String :=
  if region = "us" then "eu" else "us"

/-- `make_request_with_region` called with `detected_region = d` (truthy
or not): lines 136-145 switch `base_url` when `d` is truthy and differs
from `self.region`; with a detected region given, the 403 fallback branch
(guarded by `not detected_region`) re-raises instead of recursing; the
`finally` restores `base_url`. -/
def make_request_with_region_detected {α : Type} (mr : String → Except APIErr α)
    (st : ClientState) (d : String) : Except APIErr α × ClientState :=
  let original := st.base_url
  let st1 := if d ≠ "" ∧ d ≠ st.region then { st with base_url := regionBaseUrl d } else st
  (mr st1.base_url, { st1 with base_url := original })

/-- `make_request_with_region` with no detected region (lines 132-160):
a 403 triggers one recursive call against the alternate region; if that
also fails, the original error is re-raised; the `finally` of each frame
restores `base_url`. -/
def make_request_with_region_auto {α : Type} (mr : String → Except APIErr α)
    (st : ClientState) : Except APIErr α × ClientState :=
  let original := st.base_url
  match mr st.base_url with
  | .ok v => (.ok v, { st with base_url := original })
  | .error e =>
    if e.status = some 403 then
      let inner := make_request_with_region_detected mr st (alternateRegion st.region)
      match inner.1 with
      | .ok v => (.ok v, { inner.2 with base_url := original })
      | .error _ => (.error e, { inner.2 with base_url := original })
    else (.error e, { st with base_url := original })

/-- `make_request_with_region` (lines 132-160). -/
def make_request_with_region {α : Type} (mr : String → Except APIErr α)
    (st : ClientState) (detected : Option String) : Except APIErr α × ClientState :=
  match detected with
  | some d => make_request_with_region_detected mr st d
  | none => make_request_with_region_auto mr st

/-! ## Bulk update preflight: `update_historical_database`
(`analysis_mcp_server.py`, lines 936-1002)

Everything up to the first network call (`async with BlizzardAPIClient()`,
line 1014) is embedded.  Python strings are `List Char`;
`secondsSinceLastUpdate` is `now - analysis_cache["last_historical_update"]`
in whole seconds, `none` when no previous update is recorded. -/

/-- Python strings at character level. -/
abbrev PyStr := List Char

/-- Python `str.lower()` (ASCII suffices for the realm arguments). -/
def pyLower (s : PyStr) : PyStr := s.map Char.toLower

/-- Python `str.strip()`. -/
def pyStrip (s : PyStr) : PyStr :=
  ((s.dropWhile (·.isWhitespace)).reverse.dropWhile (·.isWhitespace)).reverse

/-- Helper of `pySplitOn`: accumulate the current field (reversed). -/
def pySplitOnAux (sep : Char) : PyStr → PyStr → List PyStr
  | [], cur => [cur.reverse]
  | c :: rest, cur =>
      if c = sep then cur.reverse :: pySplitOnAux sep rest []
      else pySplitOnAux sep rest (c :: cur)

/-- Python `str.split(sep)` for a one-character separator
(`"".split(",") == [""]`). -/
def pySplitOn (sep : Char) (s : PyStr) : List PyStr := pySplitOnAux sep s []

/-- Lines 988-993: `parts = realm_spec.strip().split(":")`; a
`realm:region` pair becomes `(region, realm)`, anything else defaults to
region `"us"` with `parts[0]` as the realm. -/
def parseRealmSpec (spec : PyStr) : PyStr × PyStr :=
  match pySplitOn ':' (pyStrip spec) with
  | [realm, region] => (region, realm)
  | parts => ("us".data, parts.headD [])

/-- Line 953: `top_items = min(max(top_items, 10), RESOURCE_LIMITS["MAX_ITEMS_PER_REALM"])`. -/
def clampTopItems (top_items : Int) : Int :=
  min (max top_items 10) MAX_ITEMS_PER_REALM

/-- The five realms substituted for `"all-us"` (lines 966-970). -/
def allUsRealmList : List (PyStr × PyStr) :=
  [("us".data, "stormrage".data), ("us".data, "area-52".data),
   ("us".data, "tichondrius".data), ("us".data, "mal-ganis".data),
   ("us".data, "kiljaeden".data)]

/-- The ten realms substituted for `"popular"` (lines 972-979). -/
def popularRealmList : List (PyStr × PyStr) :=
  allUsRealmList ++
  [("us".data, "illidan".data), ("us".data, "thrall".data),
   ("us".data, "moon-guard".data), ("us".data, "wyrmrest-accord".data),
   ("us".data, "bleeding-hollow".data)]

/-- The default realms when no `realms` argument is given (lines 995-1002). -/
def defaultRealmList : List (PyStr × PyStr) := allUsRealmList

/-- How the preflight of `update_historical_database` ends: an early
return (the first three constructors, all produced before
`async with BlizzardAPIClient()` opens any connection), or `proceed` into
the network phase with the realm list and the clamped `top_items`. -/
inductive UpdateOutcome where
  | rateLimitMessage (secondsToWait : Nat)
  | securityError
  | tooManyRealms (count : Nat)
  | proceed (realmList : List (PyStr × PyStr)) (topItems : Int)
  deriving Repr, DecidableEq

/-- Lines 940-1002 of `update_historical_database`, up to the first
network call: the rate-limit gate, the `include_all_items`/`all-us`
conflict gate, the `top_items` clamp, and realm parsing with the
`MAX_REALMS_PER_REQUEST` gate. -/
def update_historical_database_preflight (secondsSinceLastUpdate : Option Nat)
    (realms : Option PyStr) (top_items : Int) (include_all_items : Bool) :
    UpdateOutcome :=
  let rateLimited : Bool :=
    match secondsSinceLastUpdate with
    | some age => decide (age < MIN_SECONDS_BETWEEN_UPDATES)
    | none => false
  let allUsConflict : Bool :=
    include_all_items &&
      (match realms with
       | some s => !s.isEmpty && decide (pyLower s = "all-us".data)
       | none => false)
  if rateLimited then
    .rateLimitMessage
      (MIN_SECONDS_BETWEEN_UPDATES - (secondsSinceLastUpdate.getD 0))
  else if allUsConflict then
    .securityError
  else
    let topItems := clampTopItems top_items
    match realms with
    | some s =>
      if s = [] then .proceed defaultRealmList topItems
      else if pyLower s = "all-us".data then .proceed allUsRealmList topItems
      else if pyLower s = "popular".data then .proceed popularRealmList topItems
      else
        let parsed := pySplitOn ',' s
        if MAX_REALMS_PER_REQUEST < parsed.length then .tooManyRealms parsed.length
        else .proceed (parsed.map parseRealmSpec) topItems
    | none => .proceed defaultRealmList topItems

/-- The preflight entered the network phase. -/
def isProceed : UpdateOutcome → Bool
  | .proceed _ _ => true
  | _ => false

/-- The rate-limit gate of lines 940-946 passes. -/
def rateLimitOk (secondsSinceLastUpdate : Option Nat) : Prop :=
  ∀ a, secondsSinceLastUpdate = some a → MIN_SECONDS_BETWEEN_UPDATES ≤ a

/-! ## Theorems -/

/-- Folding `store_historical_data` from the empty series keeps exactly the
most recent `HISTORY_MAX_ENTRIES` inserted points, in insertion order. -/
theorem store_historical_data_run_eq_drop {π : Type} (ps : List π) :
    ps.foldl store_historical_data [] = ps.drop (ps.length - HISTORY_MAX_ENTRIES) := by
  induction ps using List.reverseRecOn with
  | nil => simp
  | append_singleton xs x ih =>
    rw [List.foldl_append, List.foldl_cons, List.foldl_nil, ih]
    unfold store_historical_data
    by_cases h : xs.length < HISTORY_MAX_ENTRIES
    · have h0 : xs.length - HISTORY_MAX_ENTRIES = 0 := by omega
      have h1 : (xs ++ [x]).length - HISTORY_MAX_ENTRIES = 0 := by
        simp only [List.length_append, List.length_cons, List.length_nil]; omega
      rw [h0, h1, List.drop_zero, List.drop_zero, if_neg]
      simp only [List.length_append, List.length_cons, List.length_nil]
      omega
    · have hM : 0 < HISTORY_MAX_ENTRIES := by norm_num [HISTORY_MAX_ENTRIES]
      have hlen : (xs.drop (xs.length - HISTORY_MAX_ENTRIES)).length = HISTORY_MAX_ENTRIES := by
        rw [List.length_drop]; omega
      rw [if_pos (by rw [List.length_append, hlen]; simp)]
      rw [show (xs.drop (xs.length - HISTORY_MAX_ENTRIES) ++ [x]).length -
            HISTORY_MAX_ENTRIES = 1 from by rw [List.length_append, hlen]; simp]
      rw [show (xs ++ [x]).length - HISTORY_MAX_ENTRIES =
            xs.length - HISTORY_MAX_ENTRIES + 1 from by
          rw [List.length_append]; simp; omega]
      rw [List.drop_append_eq_append_drop, List.drop_append_eq_append_drop]
      rw [hlen]
      rw [show 1 - HISTORY_MAX_ENTRIES = 0 from by omega]
      rw [show xs.length - HISTORY_MAX_ENTRIES + 1 - xs.length = 0 from by omega]
      rw [List.drop_drop]

/-- C3: for every series, after any number of `store_historical_data`
calls the stored series has length at most `HISTORY_MAX_ENTRIES` (288),
and it consists of exactly the most recently inserted points, in insertion
order (the oldest points are the ones evicted once the cap is reached). -/
theorem store_historical_data_bounded_and_recent {π : Type} (ps : List π) :
    (ps.foldl store_historical_data []).length ≤ HISTORY_MAX_ENTRIES ∧
    ps.foldl store_historical_data [] = ps.drop (ps.length - HISTORY_MAX_ENTRIES) := by
  refine ⟨?_, store_historical_data_run_eq_drop ps⟩
  rw [store_historical_data_run_eq_drop ps, List.length_drop]
  omega

/-- C8: `get_cached_analysis` never serves an entry whose TTL has elapsed:
whenever the wall clock is past the stored expiry instant, the read
returns `none`, with no eviction or sweep required. -/
theorem get_cached_analysis_expired_absent {κ V : Type} [DecidableEq κ]
    (cache : List (κ × V)) (ttl : List (κ × Nat)) (now : Nat) (key : κ)
    (expiry : Nat) (hfound : dictGet ttl key = some expiry) (hpast : expiry < now) :
    get_cached_analysis cache ttl now key = none := by
  have hnot : ¬ (now < expiry) := by omega
  unfold get_cached_analysis
  rw [hfound]
  cases h : dictGet cache key <;> simp [hnot]

/-- Witness for C8 at a concrete cache state. -/
theorem get_cached_analysis_expired_absent_witness :
    dictGet [((0 : Nat), (5 : Nat))] 0 = some 5 ∧ (5 : Nat) < 7 ∧
    get_cached_analysis [((0 : Nat), (42 : Nat))] [(0, 5)] 7 0 = none :=
  ⟨rfl, by decide, get_cached_analysis_expired_absent _ _ 7 0 5 rfl (by decide)⟩

/-- C10: `update_historical_database` clamps the caller-supplied
`top_items` into `[10, MAX_ITEMS_PER_REALM]`: values above 500 become 500,
values below 10 (including 0 and negatives) become 10, and in-range values
pass through unchanged. -/
theorem update_historical_database_top_items_clamped (n : Int) :
    (10 ≤ clampTopItems n ∧ clampTopItems n ≤ MAX_ITEMS_PER_REALM) ∧
    clampTopItems n =
      if MAX_ITEMS_PER_REALM < n then MAX_ITEMS_PER_REALM
      else if n < 10 then 10 else n := by
  unfold clampTopItems MAX_ITEMS_PER_REALM
  refine ⟨⟨?_, ?_⟩, ?_⟩ <;>
    (rcases le_or_lt n 10 with h | h <;> rcases le_or_lt n 500 with h2 | h2 <;>
      simp [min_def, max_def] <;> split_ifs <;> omega)

/-- C6: the volatility computed by `get_historical_trends` over the price
series [10, 12, 11, 15, 9] (average 57/5 = 11.4) is (15 - 9) / 11.4 =
10/19 ≈ 0.526, and a single-point series always yields volatility 0
(no division fault, for any price including 0). -/
theorem get_historical_trends_volatility_spec :
    price_volatility [10, 12, 11, 15, 9] = 10 / 19 ∧
    avg_price [10, 12, 11, 15, 9] = 57 / 5 ∧
    |price_volatility [10, 12, 11, 15, 9] - 526 / 1000| < 1 / 1000 ∧
    ∀ p : ℚ, price_volatility [p] = 0 := by
  have havg : avg_price [10, 12, 11, 15, 9] = 57 / 5 := by
    norm_num [avg_price]
  have hmin : min_price [10, 12, 11, 15, 9] = 9 := by
    norm_num [min_price, min_def]
  have hmax : max_price [10, 12, 11, 15, 9] = 15 := by
    norm_num [max_price, max_def]
  have hvol : price_volatility [10, 12, 11, 15, 9] = 10 / 19 := by
    unfold price_volatility
    rw [havg, hmin, hmax, if_pos (by norm_num)]
    norm_num
  refine ⟨hvol, havg, ?_, ?_⟩
  · rw [hvol]
    rw [show (10 : ℚ) / 19 - 526 / 1000 = 3 / 9500 by norm_num]
    rw [abs_of_pos (by norm_num)]
    norm_num
  · intro p
    have h1 : avg_price [p] = p := by
      simp [avg_price]
    unfold price_volatility
    rw [h1]
    simp only [min_price, max_price, List.foldl_nil]
    split_ifs <;> simp

/-- The state of `make_request_with_region` with an explicit detected
region is fully restored by its `finally`. -/
theorem make_request_with_region_detected_state {α : Type}
    (mr : String → Except APIErr α) (st : ClientState) (d : String) :
    (make_request_with_region_detected mr st d).2 = st := by
  unfold make_request_with_region_detected
  split_ifs <;> rfl

/-- C9: `make_request_with_region` leaves the client's `base_url` (and
`region`) exactly as they were before the call, whether it returns a
response or surfaces an error, including on the 403 alternate-region
fallback path: the temporary region switch is never observable
afterwards. -/
theorem make_request_with_region_preserves_base_url {α : Type}
    (mr : String → Except APIErr α) (st : ClientState) (detected : Option String) :
    (make_request_with_region mr st detected).2.base_url = st.base_url ∧
    (make_request_with_region mr st detected).2 = st := by
  have hmain : (make_request_with_region mr st detected).2 = st := by
    cases detected with
    | some d => exact make_request_with_region_detected_state mr st d
    | none =>
      show (make_request_with_region_auto mr st).2 = st
      unfold make_request_with_region_auto
      cases hr : mr st.base_url with
      | ok v => rfl
      | error e =>
        have hd := make_request_with_region_detected_state mr st (alternateRegion st.region)
        dsimp only
        by_cases h4 : e.status = some 403
        · rw [if_pos h4]
          cases hi : (make_request_with_region_detected mr st (alternateRegion st.region)).1 with
          | ok v => simp [hi, hd]
          | error e2 => simp [hi, hd]
        · rw [if_neg h4]
  exact ⟨by rw [hmain], hmain⟩

/-- C2 (violated by the code): two tasks concurrently entering
`get_access_token` with no cached credential, interleaved at the `await
session.post` suspension point (schedule: both run the line-96 cache test
before either exchange resolves), each perform their own credential
exchange: two POSTs to the authorization endpoint, not one shared
single-flight exchange, and the second resumption overwrites the cache
written by the first. -/
theorem get_access_token_concurrent_double_exchange :
    (runTokenSchedule 1000 3600 [.start, .start] [0, 1, 0, 1]).1.exchanges = 2 ∧
    (runTokenSchedule 1000 3600 [.start, .start] [0, 1, 0, 1]).2 =
      [.finished, .finished] := by
  constructor <;> rfl

/-- `make_request`'s body converts every `aiohttp.ClientError` into
`BlizzardAPIError` (lines 242-243), so no exception it raises satisfies
the decorator's `retry_if_exception_type(aiohttp.ClientError)`. -/
theorem makeRequestBody_never_retryable (g1 g2 : GetOutcome) (e : PyExc)
    (h : makeRequestBody g1 g2 = .error e) : retryOnClientError e = false := by
  cases g1 with
  | clientError =>
    simp only [makeRequestBody] at h
    cases h
    rfl
  | respStatus s =>
    cases g2 with
    | clientError =>
      simp only [makeRequestBody] at h
      split_ifs at h <;> (cases h; rfl)
    | respStatus r =>
      simp only [makeRequestBody] at h
      split_ifs at h <;> (cases h; rfl)

/-- C4 (violated by the code): because the body never raises a retryable
exception, the decorated `make_request` performs exactly one attempt and
no backoff sleep, for every behaviour of the HTTP layer; in particular
when `session.get` raises a transient `aiohttp.ClientError` on every
attempt it fails immediately with a network `BlizzardAPIError` after 1
attempt and an empty delay list.  Moreover, even the configured waits,
`wait_exponential(multiplier=1, min=4, max=10)`, would be 4s then 4s
(raw 1s and 2s clamped up to the 4s minimum), not 4s then 8s. -/
theorem make_request_retries_never_happen :
    (∀ gets : Nat → GetOutcome × GetOutcome,
        (make_request_execute gets).2.1 = 1 ∧ (make_request_execute gets).2.2 = []) ∧
    make_request_execute (fun _ => (.clientError, .clientError)) =
      (.error (.blizzardError none), 1, []) ∧
    wait_exponential 1 4 10 1 = 4 ∧ wait_exponential 1 4 10 2 = 4 := by
  refine ⟨?_, rfl, by decide, by decide⟩
  intro gets
  unfold make_request_execute
  unfold tenacityGo
  cases hb : makeRequestBody (gets 1).1 (gets 1).2 with
  | ok v => exact ⟨rfl, rfl⟩
  | error e =>
    have hr := makeRequestBody_never_retryable _ _ e hb
    simp [hr]

/-- Filtering with a weaker predicate after a stronger one is the same as
filtering with the weaker predicate alone. -/
theorem filter_absorb {α : Type} (p q : α → Bool) (l : List α)
    (h : ∀ x, q x = true → p x = true) :
    (l.filter p).filter q = l.filter q := by
  induction l with
  | nil => rfl
  | cons a l ih =>
    by_cases hp : p a
    · by_cases hq : q a <;> simp [List.filter_cons, hp, hq, ih]
    · have hq : q a = false := by
        cases hqa : q a
        · rfl
        · exact absurd (h a hqa) (by simp [hp])
      simp [List.filter_cons, hp, hq, ih]

/-- One `acquire` attempt preserves the limiter invariant: the stored
window is the admitted trace filtered to the last `W` units, all admitted
timestamps are in the past, and every sliding window holds at most `N`
admitted timestamps. -/
theorem rlStep_inv (N W prev now : Nat) (tr : RLTrace) (hW : 0 < W)
    (hmono : prev ≤ now)
    (h1 : tr.requests = tr.admitted.filter (fun r => decide (prev - r < W)))
    (h2 : ∀ r ∈ tr.admitted, r ≤ prev)
    (h3 : ∀ t, windowCount W tr.admitted t ≤ N) :
    (rlStep N W tr now).requests =
      (rlStep N W tr now).admitted.filter (fun r => decide (now - r < W)) ∧
    (∀ r ∈ (rlStep N W tr now).admitted, r ≤ now) ∧
    (∀ t, windowCount W (rlStep N W tr now).admitted t ≤ N) := by
  have hpruned : pruneWindow W now tr.requests =
      tr.admitted.filter (fun r => decide (now - r < W)) := by
    rw [h1]
    unfold pruneWindow
    apply filter_absorb
    intro x hx
    have hx' : now - x < W := of_decide_eq_true hx
    have : prev - x ≤ now - x := Nat.sub_le_sub_right hmono x
    exact decide_eq_true (by omega)
  unfold rlStep acquireStep
  rw [hpruned]
  by_cases hlen :
      (tr.admitted.filter (fun r => decide (now - r < W))).length < N
  · rw [if_pos hlen]
    dsimp only
    simp only [eq_self_iff_true, if_true]
    refine ⟨?_, ?_, ?_⟩
    · rw [List.filter_append]
      have : [now].filter (fun r => decide (now - r < W)) = [now] := by
        simp [List.filter_cons]
        omega
      rw [this]
    · intro r hr
      rcases List.mem_append.mp hr with hr | hr
      · exact le_trans (h2 r hr) hmono
      · rcases List.mem_singleton.mp hr with rfl
        exact le_refl _
    · intro t
      unfold windowCount at *
      rw [List.countP_append]
      by_cases hwin : inWindow W t now = true
      · have hsub : tr.admitted.countP (inWindow W t) ≤
            tr.admitted.countP (fun r => decide (now - r < W)) := by
          apply List.countP_mono_left
          intro r hr hrt
          have h2r : r ≤ now := le_trans (h2 r hr) hmono
          unfold inWindow at hrt hwin
          have hrt' : r ≤ t ∧ t - r < W := by
            constructor <;> [exact of_decide_eq_true (Bool.and_elim_left hrt);
              exact of_decide_eq_true (Bool.and_elim_right hrt)]
          have hwin' : now ≤ t ∧ t - now < W := by
            constructor <;> [exact of_decide_eq_true (Bool.and_elim_left hwin);
              exact of_decide_eq_true (Bool.and_elim_right hwin)]
          exact decide_eq_true (by omega)
        have hone : List.countP (inWindow W t) [now] = 1 := by
          simp [List.countP_cons, hwin]
        have hcp : tr.admitted.countP (fun r => decide (now - r < W)) =
            (tr.admitted.filter (fun r => decide (now - r < W))).length :=
          List.countP_eq_length_filter _ _
        omega
      · have hzero : List.countP (inWindow W t) [now] = 0 := by
          simp [List.countP_cons, hwin]
        rw [hzero]
        simpa using h3 t
  · rw [if_neg hlen]
    dsimp only
    simp only [Bool.false_eq_true, if_false]
    exact ⟨by trivial, fun r hr => le_trans (h2 r hr) hmono, h3⟩

/-- Running any nondecreasing sequence of `acquire` attempts from a state
satisfying the limiter invariant keeps every sliding window at or below
`N` admitted timestamps. -/
theorem rlRun_inv (N W : Nat) (hW : 0 < W) :
    ∀ (times : List Nat) (tr : RLTrace) (prev : Nat),
      List.Chain (· ≤ ·) prev times →
      tr.requests = tr.admitted.filter (fun r => decide (prev - r < W)) →
      (∀ r ∈ tr.admitted, r ≤ prev) →
      (∀ t, windowCount W tr.admitted t ≤ N) →
      ∀ t, windowCount W (times.foldl (rlStep N W) tr).admitted t ≤ N := by
  intro times
  induction times with
  | nil =>
    intro tr prev _ _ _ h3 t
    simpa using h3 t
  | cons now rest ih =>
    intro tr prev hchain h1 h2 h3 t
    obtain ⟨hmono, hchain'⟩ := List.chain_cons.mp hchain
    obtain ⟨g1, g2, g3⟩ := rlStep_inv N W prev now tr hW hmono h1 h2 h3
    rw [List.foldl_cons]
    exact ih (rlStep N W tr now) now hchain' g1 g2 g3 t

/-- C1: for every nondecreasing sequence of `acquire()` call times (the
limiter is configured with `max_requests = 100`; `W` is the 1-second
window expressed in the abstract time unit), no sliding window of length
`W` ever contains more than 100 admitted (recorded) timestamps. -/
theorem rateLimiter_acquire_window_bound (W : Nat) (hW : 0 < W)
    (times : List Nat) (hmono : List.Chain' (· ≤ ·) times) (t : Nat) :
    windowCount W (rlRun 100 W times).admitted t ≤ 100 := by
  unfold rlRun
  have hchain : List.Chain (· ≤ ·) 0 times := by
    cases times with
    | nil => exact List.Chain.nil
    | cons a l => exact List.Chain.cons (Nat.zero_le a) hmono
  exact rlRun_inv 100 W hW times ⟨[], []⟩ 0 hchain (by simp) (by simp)
    (by intro t2; simp [windowCount]) t

/-- Witness for C1 on a concrete attempt schedule. -/
theorem rateLimiter_acquire_window_bound_witness :
    0 < 10 ∧ List.Chain' (· ≤ ·) [0, 3, 5, 5, 12] ∧
    windowCount 10 (rlRun 100 10 [0, 3, 5, 5, 12]).admitted 12 ≤ 100 :=
  ⟨by decide, by norm_num [List.chain'_cons],
    rateLimiter_acquire_window_bound 10 (by decide) [0, 3, 5, 5, 12]
      (by norm_num [List.chain'_cons]) 12⟩

/-- Stable insertion produces a permutation. -/
theorem insertByLenDesc_perm {κ π : Type} (x : κ × List π) (l : Store κ π) :
    (insertByLenDesc x l).Perm (x :: l) := by
  induction l with
  | nil => exact List.Perm.refl _
  | cons y ys ih =>
    unfold insertByLenDesc
    split_ifs with h
    · exact List.Perm.refl _
    · exact (ih.cons y).trans (List.Perm.swap x y ys)

/-- The sort of `cleanup_old_historical_data` permutes the store. -/
theorem sortByLenDesc_perm {κ π : Type} (s : Store κ π) :
    (sortByLenDesc s).Perm s := by
  induction s with
  | nil => exact List.Perm.refl _
  | cons a l ih =>
    show (insertByLenDesc a (sortByLenDesc l)).Perm (a :: l)
    exact (insertByLenDesc_perm a (sortByLenDesc l)).trans (ih.cons a)

/-- Stable insertion preserves the descending-by-length ordering. -/
theorem insertByLenDesc_pairwise {κ π : Type} (x : κ × List π) (l : Store κ π)
    (h : l.Pairwise (fun a b => b.2.length ≤ a.2.length)) :
    (insertByLenDesc x l).Pairwise (fun a b => b.2.length ≤ a.2.length) := by
  induction l with
  | nil => simp [insertByLenDesc]
  | cons y ys ih =>
    obtain ⟨hy, hys⟩ := List.pairwise_cons.mp h
    unfold insertByLenDesc
    split_ifs with hle
    · refine List.pairwise_cons.mpr ⟨?_, h⟩
      intro b hb
      rcases List.mem_cons.mp hb with rfl | hb
      · exact hle
      · exact le_trans (hy b hb) hle
    · refine List.pairwise_cons.mpr ⟨?_, ih hys⟩
      intro b hb
      have hb' := (insertByLenDesc_perm x ys).mem_iff.mp hb
      rcases List.mem_cons.mp hb' with rfl | hb'
      · omega
      · exact hy b hb'

/-- The sorted store is descending by point count. -/
theorem sortByLenDesc_pairwise {κ π : Type} (s : Store κ π) :
    (sortByLenDesc s).Pairwise (fun a b => b.2.length ≤ a.2.length) := by
  induction s with
  | nil => simp [sortByLenDesc]
  | cons a l ih => exact insertByLenDesc_pairwise a _ ih

/-- In a list sorted so that every element satisfying `P` precedes every
element not satisfying it, the `P`-elements are exactly the first
`countP P` positions. -/
theorem filter_eq_take_countP {α : Type} (P : α → Bool) (r : α → α → Prop)
    (hmono : ∀ a b, r a b → P b = true → P a = true) :
    ∀ l : List α, l.Pairwise r → l.filter P = l.take (l.countP P) := by
  intro l
  induction l with
  | nil => intro _; rfl
  | cons x xs ih =>
    intro h
    obtain ⟨hx1, hx2⟩ := List.pairwise_cons.mp h
    by_cases hx : P x
    · simp [List.filter_cons, hx, List.countP_cons, ih hx2]
    · have hnone : ∀ b ∈ xs, P b = false := by
        intro b hb
        cases hPb : P b
        · rfl
        · exact absurd (hmono x b (hx1 b hb) hPb) (by simp [hx])
      have hfx : xs.filter P = [] :=
        List.filter_eq_nil_iff.mpr (fun b hb => by simp [hnone b hb])
      have hcx : xs.countP P = 0 := by
        rw [List.countP_eq_length_filter, hfx]
        rfl
      simp [List.filter_cons, hx, List.countP_cons, hcx, hfx]

/-- Membership in a shorter prefix implies membership in a longer one. -/
theorem mem_take_of_le {α : Type} (l : List α) (m n : Nat) (h : m ≤ n) (x : α)
    (hx : x ∈ l.take m) : x ∈ l.take n := by
  have heq : l.take m = (l.take n).take m := by
    rw [List.take_take, Nat.min_eq_left h]
  rw [heq] at hx
  exact List.take_subset _ _ hx

/-- When at most 100 series exceed the cap, every over-cap series is among
the 100 largest selected by `cleanup_old_historical_data`. -/
theorem overCap_mem_top {κ π : Type} [DecidableEq κ] (s : Store κ π)
    (hcap : s.countP (fun e => decide (MAX_DATA_POINTS_PER_ITEM < e.2.length)) ≤ 100)
    (e : κ × List π) (he : e ∈ s) (hover : MAX_DATA_POINTS_PER_ITEM < e.2.length) :
    e ∈ (sortByLenDesc s).take 100 := by
  have hmem : e ∈ (sortByLenDesc s).filter
      (fun e => decide (MAX_DATA_POINTS_PER_ITEM < e.2.length)) := by
    refine List.mem_filter.mpr ⟨?_, ?_⟩
    · exact (sortByLenDesc_perm s).mem_iff.mpr he
    · exact decide_eq_true hover
  rw [filter_eq_take_countP _ (fun a b => b.2.length ≤ a.2.length)
    (fun a b hab hb => decide_eq_true (lt_of_lt_of_le (of_decide_eq_true hb) hab))
    _ (sortByLenDesc_pairwise s)] at hmem
  have hc : (sortByLenDesc s).countP
        (fun e => decide (MAX_DATA_POINTS_PER_ITEM < e.2.length)) =
      s.countP (fun e => decide (MAX_DATA_POINTS_PER_ITEM < e.2.length)) :=
    (sortByLenDesc_perm s).countP_eq _
  exact mem_take_of_le _ _ _ (by rw [hc]; exact hcap) e hmem

/-- After one cleanup pass with at most 100 over-cap series, every series
is at or below the cap. -/
theorem cleanup_old_historical_data_all_le {κ π : Type} [DecidableEq κ]
    (s : Store κ π)
    (hcap : s.countP (fun e => decide (MAX_DATA_POINTS_PER_ITEM < e.2.length)) ≤ 100) :
    ∀ e ∈ cleanup_old_historical_data s, e.2.length ≤ MAX_DATA_POINTS_PER_ITEM := by
  intro e he
  simp only [cleanup_old_historical_data] at he
  rcases List.mem_map.mp he with ⟨e0, he0, rfl⟩
  by_cases hcond : e0.1 ∈ ((sortByLenDesc s).take 100).map Prod.fst ∧
      MAX_DATA_POINTS_PER_ITEM < e0.2.length
  · rw [if_pos hcond]
    have := hcond.2
    simp only [List.length_drop]
    omega
  · rw [if_neg hcond]
    by_cases hover : MAX_DATA_POINTS_PER_ITEM < e0.2.length
    · exact absurd
        ⟨List.mem_map.mpr ⟨e0, overCap_mem_top s hcap e0 he0 hover, rfl⟩, hover⟩ hcond
    · omega

/-- A store with every series at or below the cap is a fixed point of
`cleanup_old_historical_data`. -/
theorem cleanup_old_historical_data_fix {κ π : Type} [DecidableEq κ]
    (s : Store κ π)
    (h : ∀ e ∈ s, e.2.length ≤ MAX_DATA_POINTS_PER_ITEM) :
    cleanup_old_historical_data s = s := by
  simp only [cleanup_old_historical_data]
  conv_rhs => rw [← List.map_id s]
  apply List.map_congr_left
  intro e he
  rw [if_neg]
  · rfl
  · rintro ⟨_, hlen⟩
    exact absurd hlen (by have := h e he; omega)

/-- C5 (amended): `cleanup_old_historical_data` is idempotent whenever at
most 100 series exceed `MAX_DATA_POINTS_PER_ITEM` (in particular whenever
one pass can truncate every over-cap series); under that proviso one pass
leaves every series at or below the cap, so a second call with no
insertions in between performs no further truncation. -/
theorem cleanup_old_historical_data_idempotent {κ π : Type} [DecidableEq κ]
    (s : Store κ π)
    (hcap : s.countP (fun e => decide (MAX_DATA_POINTS_PER_ITEM < e.2.length)) ≤ 100) :
    cleanup_old_historical_data (cleanup_old_historical_data s) =
      cleanup_old_historical_data s ∧
    ∀ e ∈ cleanup_old_historical_data s, e.2.length ≤ MAX_DATA_POINTS_PER_ITEM :=
  ⟨cleanup_old_historical_data_fix _ (cleanup_old_historical_data_all_le s hcap),
    cleanup_old_historical_data_all_le s hcap⟩

/-- Witness for the amended C5 on a concrete one-series store. -/
theorem cleanup_old_historical_data_idempotent_witness :
    ([((0 : Nat), List.replicate 289 ())] : Store Nat Unit).countP
        (fun e => decide (MAX_DATA_POINTS_PER_ITEM < e.2.length)) ≤ 100 ∧
    cleanup_old_historical_data
        (cleanup_old_historical_data [((0 : Nat), List.replicate 289 ())]) =
      cleanup_old_historical_data [((0 : Nat), List.replicate 289 ())] :=
  ⟨by decide,
    (cleanup_old_historical_data_idempotent [((0 : Nat), List.replicate 289 ())]
      (by decide)).1⟩

/-- C5 counterexample: with 101 series of 289 points each, the first
cleanup pass truncates only the 100 series it selects, and the second
pass truncates the remaining over-cap series — so calling
`cleanup_old_historical_data` twice in a row with no insertions in
between does perform further truncation, falsifying the claim as
stated. -/
theorem cleanup_old_historical_data_not_idempotent :
    cleanup_old_historical_data (cleanup_old_historical_data overfullStore) ≠
      cleanup_old_historical_data overfullStore := by
  decide

/-- C7: `update_historical_database` rejects, before any network call
(`async with BlizzardAPIClient()` is only reached through `proceed`):
(a) any explicit realm list with more than `MAX_REALMS_PER_REQUEST` = 5
entries — when the rate-limit gate passes, with the too-many-realms
validation error; and (b) the conflicting combination of
`include_all_items = true` with `realms = "all-us"` — when the rate-limit
gate passes, with the security validation error. -/
theorem update_historical_database_rejects_before_network :
    (∀ (age : Option Nat) (s : PyStr) (ti : Int) (allItems : Bool),
        pyLower s ≠ "all-us".data → pyLower s ≠ "popular".data →
        MAX_REALMS_PER_REQUEST < (pySplitOn ',' s).length →
        isProceed (update_historical_database_preflight age (some s) ti allItems) =
          false ∧
        (rateLimitOk age →
          update_historical_database_preflight age (some s) ti allItems =
            .tooManyRealms (pySplitOn ',' s).length)) ∧
    (∀ (age : Option Nat) (s : PyStr) (ti : Int),
        s ≠ [] → pyLower s = "all-us".data →
        isProceed (update_historical_database_preflight age (some s) ti true) =
          false ∧
        (rateLimitOk age →
          update_historical_database_preflight age (some s) ti true =
            .securityError)) := by
  constructor
  · intro age s ti allItems h1 h2 h3
    have hs : s ≠ [] := by
      rintro rfl
      norm_num [pySplitOn, pySplitOnAux, MAX_REALMS_PER_REQUEST] at h3
    have e1 : decide (pyLower s = "all-us".data) = false := decide_eq_false h1
    have e2 : decide (pyLower s = "popular".data) = false := decide_eq_false h2
    have hs' : s.isEmpty = false := by
      cases s with
      | nil => exact absurd rfl hs
      | cons a l => rfl
    cases age with
    | none =>
      constructor
      · simp [update_historical_database_preflight, h1, h2, hs, hs', h3, isProceed]
      · intro _
        simp [update_historical_database_preflight, h1, h2, hs, hs', h3]
    | some a =>
      by_cases ha : a < MIN_SECONDS_BETWEEN_UPDATES
      · constructor
        · simp [update_historical_database_preflight, ha, isProceed]
        · intro hok
          exact absurd (hok a rfl) (by omega)
      · constructor
        · simp [update_historical_database_preflight, ha, h1, h2, hs, hs', h3, isProceed]
        · intro _
          simp [update_historical_database_preflight, ha, h1, h2, hs, hs', h3]
  · intro age s ti hs hlow
    have e1 : decide (pyLower s = "all-us".data) = true := decide_eq_true hlow
    have hs' : s.isEmpty = false := by
      cases s with
      | nil => exact absurd rfl hs
      | cons a l => rfl
    cases age with
    | none =>
      constructor
      · simp [update_historical_database_preflight, hlow, hs', isProceed]
      · intro _
        simp [update_historical_database_preflight, hlow, hs']
    | some a =>
      by_cases ha : a < MIN_SECONDS_BETWEEN_UPDATES
      · constructor
        · simp [update_historical_database_preflight, ha, isProceed]
        · intro hok
          exact absurd (hok a rfl) (by omega)
      · constructor
        · simp [update_historical_database_preflight, ha, hlow, hs', isProceed]
        · intro _
          simp [update_historical_database_preflight, ha, hlow, hs']

/-- Witness for C7 at concrete arguments: six realms in the list, and the
`include_all_items`/`"all-us"` conflict. -/
theorem update_historical_database_rejects_before_network_witness :
    update_historical_database_preflight none (some "a,b,c,d,e,f".data) 100 false =
      .tooManyRealms 6 ∧
    update_historical_database_preflight (some 100) (some "all-us".data) 3 true =
      .securityError := by
  constructor
  · have h := (update_historical_database_rejects_before_network.1 none
      "a,b,c,d,e,f".data 100 false (by decide) (by decide) (by decide)).2
      (by intro a ha; cases ha)
    exact h.trans (by decide)
  · exact (update_historical_database_rejects_before_network.2 (some 100)
      "all-us".data 3 (by decide) (by decide)).2
      (by intro a ha; cases ha; decide)

end Wowconomics
